import Mathlib

/-!
Verification of the progress-tracking / graph-composition core of the
timely-dataflow fragment: the `Concat` merge scope (`src/example/concat.rs`)
and the `Stream` wiring helpers (`src/example/stream.rs`), over a shallow
embedding.  The `CountMap`, `Graph`, `Source`/`Target` and `OutputPort`/
`Observer` collaborators are not part of the shown sources and are modelled
from the specification text.
-/

namespace Timely

/-- Modelled from the spec: the Delta Counter Map (`progress::count_map::CountMap`,
not among the shown sources).  A sparse mapping from timestamps to signed
integer deltas; a timestamp absent from the map has an implicit count of zero,
and zero-net entries are purged on update. -/
structure CountMap (T : Type) where
  entries : List (T × Int)
deriving DecidableEq

/-- Modelled from the spec: a freshly allocated, empty counter map. -/
def CountMap.new {T : Type} : CountMap T := ⟨[]⟩

/-- Modelled from the spec: merge an additive delta into an association list,
creating an entry when the key is absent (and the delta non-zero) and removing
the entry when the net count reaches zero. -/
def updateEntries {T : Type} [DecidableEq T] : List (T × Int) → T → Int → List (T × Int)
  | [], key, val => if val = 0 then [] else [(key, val)]
  | (k, v) :: rest, key, val =>
    if k = key then
      if v + val = 0 then rest else (key, v + val) :: rest
    else
      (k, v) :: updateEntries rest key val

/-- Modelled from the spec: `update(timestamp, delta)` merges an additive delta. -/
def CountMap.update {T : Type} [DecidableEq T] (m : CountMap T) (key : T) (val : Int) :
    CountMap T :=
  ⟨updateEntries m.entries key val⟩

/-- Modelled from the spec: `pop()` removes and returns one entry, or signals
emptiness; the order is unspecified, modelled here as taking the first entry. -/
def CountMap.pop {T : Type} (m : CountMap T) : Option ((T × Int) × CountMap T) :=
  match m.entries with
  | [] => none
  | e :: rest => some (e, ⟨rest⟩)

/-- Modelled from the spec: whether any non-zero entries remain. -/
def CountMap.isEmpty {T : Type} (m : CountMap T) : Bool :=
  m.entries.isEmpty

/-- The net count a counter map records for one timestamp (absent means zero). -/
def CountMap.count {T : Type} [DecidableEq T] (m : CountMap T) (t : T) : Int :=
  (m.entries.map (fun e => if e.1 = t then e.2 else 0)).sum

/-- The net count a raw delta list records for one timestamp. -/
def entsCount {T : Type} [DecidableEq T] (es : List (T × Int)) (t : T) : Int :=
  (es.map (fun e => if e.1 = t then e.2 else 0)).sum

/-- Fold a list of (timestamp, delta) pairs into a counter map via `update`. -/
def foldUpdate {T : Type} [DecidableEq T] (m : CountMap T) (es : List (T × Int)) :
    CountMap T :=
  es.foldl (fun acc e => acc.update e.1 e.2) m

/-- The `ConcatScope` struct of `src/example/concat.rs`: it holds one shared
counter map per input (`consumed: Vec<Rc<RefCell<CountMap<T>>>>`); the shared
mutable cells are embedded as explicit state threaded through the calls. -/
structure ConcatScope (T : Type) where
  consumed : List (CountMap T)
deriving DecidableEq

/-- Embeds `fn name(&self) -> String` of `ConcatScope`. -/
def ConcatScope.name {T : Type} (_s : ConcatScope T) : String := "Concat"

/-- Embeds `fn inputs(&self) -> u64` of `ConcatScope`: the number of held counter maps. -/
def ConcatScope.inputs {T : Type} (s : ConcatScope T) : Nat := s.consumed.length

/-- Embeds `fn outputs(&self) -> u64` of `ConcatScope`: always 1. -/
def ConcatScope.outputs {T : Type} (_s : ConcatScope T) : Nat := 1

/-- Embeds `fn notify_me(&self) -> bool` of `ConcatScope`: always false. -/
def ConcatScope.notifyMe {T : Type} (_s : ConcatScope T) : Bool := false

/-- The inner `while let Some((key, val)) = updates.borrow_mut().pop()` loop of
`pull_internal_progress`: drains a delta list, merging each popped entry into
both the consumed-report slot and the produced-report slot. -/
def drainSteps {T : Type} [DecidableEq T] :
    List (T × Int) → CountMap T × CountMap T → CountMap T × CountMap T
  | [], cp => cp
  | (key, val) :: rest, (c, p) =>
    drainSteps rest (c.update key val, p.update key val)

/-- The `for (index, updates) in self.consumed.iter().enumerate()` loop of
`pull_internal_progress`: for each input map in turn, drains it into
`messages_consumed[index]` and `messages_produced[0]`, leaving the input map
empty. -/
def pullLoop {T : Type} [DecidableEq T] :
    List (CountMap T) → Nat → List (CountMap T) → List (CountMap T) →
    List (CountMap T) × List (CountMap T) × List (CountMap T)
  | [], _, cons, prod => ([], cons, prod)
  | m :: rest, index, cons, prod =>
    let cp := drainSteps m.entries (cons.getD index CountMap.new, prod.getD 0 CountMap.new)
    let r := pullLoop rest (index + 1) (cons.set index cp.1) (prod.set 0 cp.2)
    (CountMap.new :: r.1, r.2.1, r.2.2)

/-- Embeds `fn pull_internal_progress` of `ConcatScope`
(`src/example/concat.rs`, lines 58-70): drains every input's shared counter map
into the caller-supplied reports and returns `false`.  The result carries the
post-call scope state, the (untouched) frontier report, the consumed and
produced reports, and the boolean return value. -/
def ConcatScope.pullInternalProgress {T : Type} [DecidableEq T] (s : ConcatScope T)
    (frontierProgress messagesConsumed messagesProduced : List (CountMap T)) :
    ConcatScope T × List (CountMap T) × List (CountMap T) × List (CountMap T) × Bool :=
  let r := pullLoop s.consumed 0 messagesConsumed messagesProduced
  (⟨r.1⟩, frontierProgress, r.2.1, r.2.2, false)

/-- Modelled from the spec: `progress::nested::Source` (not among the shown
sources), a (scope, port) source address; ports of the parent graph use the
distinguished `GraphInput` mode. -/
inductive Source : Type where
  | GraphInput : Nat → Source
  | ScopeOutput : Nat → Nat → Source
deriving DecidableEq

/-- Modelled from the spec: `progress::nested::Target` (not among the shown
sources), a (scope, port) target address; ports of the parent graph use the
distinguished `GraphOutput` mode. -/
inductive Target : Type where
  | GraphOutput : Nat → Target
  | ScopeInput : Nat → Nat → Target
deriving DecidableEq

/-- Modelled from the spec: `communication::channels::ObserverHelper` (not among
the shown sources) binds one output port and one counter map; the reference-
counted sharing of ports and maps is embedded as identifiers into a build
state, so that two holders of the same identifier share the same object. -/
structure ObserverHelper where
  port : Nat
  countMap : Nat
deriving DecidableEq

/-- The wiring-time record of a registered `ConcatScope`: the identifiers of
the shared counter maps it holds, one per input. -/
structure ScopeRec where
  consumedIds : List Nat
deriving DecidableEq

/-- The `inputs()` arity of a registered scope record: one input per held counter map. -/
def ScopeRec.inputs (r : ScopeRec) : Nat := r.consumedIds.length

/-- The `outputs()` arity of a registered scope record: always 1. -/
def ScopeRec.outputs (_r : ScopeRec) : Nat := 1

/-- Modelled from the spec: the Graph builder (not among the shown sources)
owns an ordered sequence of scopes and the list of directed edges. -/
structure GraphRec where
  scopes : List ScopeRec
  edges : List (Source × Target)
deriving DecidableEq

/-- Modelled from the spec: `add_scope` appends the scope and returns its
stable index. -/
def GraphRec.addScope (g : GraphRec) (s : ScopeRec) : Nat × GraphRec :=
  (g.scopes.length, ⟨g.scopes ++ [s], g.edges⟩)

/-- Modelled from the spec: `connect(source, target)` records one directed
edge and moves no data. -/
def GraphRec.connect (g : GraphRec) (s : Source) (t : Target) : GraphRec :=
  ⟨g.scopes, g.edges ++ [(s, t)]⟩

/-- The mutable state a stream-composition call threads: the borrowed graph
builder, the observer registry of every allocated output port (indexed by
port identifier), and the number of allocated counter maps (identifiers
`0, ..., maps - 1` are in use; `maps` is the next fresh one). -/
structure BuildState where
  graph : GraphRec
  ports : List (List ObserverHelper)
  maps : Nat
deriving DecidableEq

/-- Modelled from the spec: `OutputPort::new()` allocates a fresh shared port
with no registered observers and returns its identifier. -/
def allocPort (st : BuildState) : Nat × BuildState :=
  (st.ports.length, { st with ports := st.ports ++ [[]] })

/-- Allocation of `n` fresh shared counter maps (`Rc::new(RefCell::new(
CountMap::new()))` repeated), returning their identifiers in order. -/
def allocMaps (st : BuildState) (n : Nat) : List Nat × BuildState :=
  ((List.range n).map (fun i => st.maps + i), { st with maps := st.maps + n })

/-- Modelled from the spec: registering an observer on an output port appends
it to that port's observer set. -/
def addObserver (ports : List (List ObserverHelper)) (port : Nat)
    (obs : ObserverHelper) : List (List ObserverHelper) :=
  ports.set port (ports.getD port [] ++ [obs])

/-- The `Stream` struct of `src/example/stream.rs`: a source address naming it
in the host graph and the identifier of the output port used to register
interest in its output.  The borrowed graph is part of the threaded
`BuildState`. -/
structure StreamRec where
  name : Source
  ports : Nat
deriving DecidableEq

/-- Embeds `Stream::connect_to` (`src/example/stream.rs`, lines 56-59): records the
edge from the stream's own source to `target` in the borrowed graph and
registers the observer on the stream's own output port. -/
def StreamRec.connectTo (s : StreamRec) (target : Target) (obs : ObserverHelper)
    (st : BuildState) : BuildState :=
  { st with
    graph := st.graph.connect s.name target
    ports := addObserver st.ports s.ports obs }

/-- Embeds `Stream::clone_with` (`src/example/stream.rs`, lines 52-54): a derived
stream with a new source address and output port, sharing the same graph
borrow. -/
def StreamRec.cloneWith (_s : StreamRec) (source : Source) (targets : Nat) :
    StreamRec :=
  { name := source, ports := targets }

/-- The `for id in 0..self.len()` wiring loop of `concatenate`: connects the
stream at position `id` to `ScopeInput(index, id)` with an observer binding
the merged output port and that input's shared counter map. -/
def connectAll : List StreamRec → List Nat → Nat → Nat → Nat → BuildState →
    BuildState
  | [], _, _, _, _, st => st
  | s :: rest, ids, id, index, outputs, st =>
    let st1 := s.connectTo (Target.ScopeInput index id)
      ⟨outputs, ids.getD id 0⟩ st
    connectAll rest ids (id + 1) index outputs st1

/-- Embeds `ConcatVecExt::concatenate` (`src/example/concat.rs`, lines 32-46): fails
on an empty vector of streams, otherwise allocates a fresh output port and one
fresh shared counter map per input stream, registers one `ConcatScope` holding
those maps, wires every stream to the corresponding scope input, and returns
a stream at the scope's single output.  The `panic!` is embedded as
`Except.error`. -/
def concatenate (streams : List StreamRec) (st : BuildState) :
    Except String (StreamRec × BuildState) :=
  if streams.length = 0 then
    Except.error "must pass at least one stream to concat"
  else
    let p := allocPort st
    let m := allocMaps p.2 streams.length
    let a := m.2.graph.addScope ⟨m.1⟩
    let st3 : BuildState := { m.2 with graph := a.2 }
    let st4 := connectAll streams m.1 0 a.1 p.1 st3
    Except.ok ((streams.getD 0 ⟨Source.GraphInput 0, 0⟩).cloneWith
      (Source.ScopeOutput a.1 0) p.1, st4)

/-- Embeds `ConcatExt::concat` (`src/example/concat.rs`, lines 16-26): the two-stream
merge, written out as in the source: fresh output port, two fresh shared
counter maps, one registered `ConcatScope`, the two `connect_to` calls, and a
`clone_with` on the first stream. -/
def StreamRec.concat (s : StreamRec) (other : StreamRec) (st : BuildState) :
    StreamRec × BuildState :=
  let p := allocPort st
  let m := allocMaps p.2 2
  let a := m.2.graph.addScope ⟨m.1⟩
  let st3 : BuildState := { m.2 with graph := a.2 }
  let st4 := s.connectTo (Target.ScopeInput a.1 0) ⟨p.1, m.1.getD 0 0⟩ st3
  let st5 := other.connectTo (Target.ScopeInput a.1 1) ⟨p.1, m.1.getD 1 0⟩ st4
  (s.cloneWith (Source.ScopeOutput a.1 0) p.1, st5)

/-! ### Helper lemmas -/

theorem set_getD_self {α : Type _} : ∀ (l : List α) (i : Nat) (d : α),
    l.set i (l.getD i d) = l
  | [], _, _ => by simp
  | _ :: _, 0, _ => by simp [List.getD]
  | x :: xs, i + 1, d => by
    simpa [List.getD_cons_succ] using congrArg (x :: ·) (set_getD_self xs i d)

theorem count_eq_entsCount {T : Type} [DecidableEq T] (m : CountMap T) (t : T) :
    m.count t = entsCount m.entries t := rfl

theorem entsCount_cons {T : Type} [DecidableEq T] (e : T × Int) (es : List (T × Int)) (t : T) :
    entsCount (e :: es) t = (if e.1 = t then e.2 else 0) + entsCount es t := by
  simp [entsCount]

theorem entsCount_append {T : Type} [DecidableEq T] (xs ys : List (T × Int)) (t : T) :
    entsCount (xs ++ ys) t = entsCount xs t + entsCount ys t := by
  simp [entsCount]

theorem entsCount_updateEntries {T : Type} [DecidableEq T]
    (es : List (T × Int)) (k : T) (v : Int) (t : T) :
    entsCount (updateEntries es k v) t = entsCount es t + (if k = t then v else 0) := by
  induction es with
  | nil =>
    by_cases hv : v = 0 <;> by_cases hk : k = t <;>
      simp [updateEntries, entsCount, hv, hk]
  | cons e rest ih =>
    obtain ⟨k1, v1⟩ := e
    rw [entsCount_cons]
    show entsCount (if k1 = k then if v1 + v = 0 then rest else (k, v1 + v) :: rest
        else (k1, v1) :: updateEntries rest k v) t = _
    by_cases h1 : k1 = k
    · rw [if_pos h1]
      subst h1
      by_cases h0 : v1 + v = 0
      · rw [if_pos h0]
        by_cases hk : k1 = t
        · subst hk; simp; omega
        · simp [hk]
      · rw [if_neg h0, entsCount_cons]
        by_cases hk : k1 = t
        · subst hk; simp; omega
        · simp [hk]
    · rw [if_neg h1, entsCount_cons, ih]
      ring

theorem count_update {T : Type} [DecidableEq T] (m : CountMap T) (k : T) (v : Int) (t : T) :
    (m.update k v).count t = m.count t + (if k = t then v else 0) :=
  entsCount_updateEntries m.entries k v t

theorem count_foldUpdate {T : Type} [DecidableEq T] (es : List (T × Int))
    (m : CountMap T) (t : T) :
    (foldUpdate m es).count t = m.count t + entsCount es t := by
  induction es generalizing m with
  | nil => simp [foldUpdate, entsCount]
  | cons e rest ih =>
    show (foldUpdate (m.update e.1 e.2) rest).count t = _
    rw [ih, count_update, entsCount_cons]
    omega

theorem foldUpdate_append {T : Type} [DecidableEq T] (m : CountMap T)
    (xs ys : List (T × Int)) :
    foldUpdate m (xs ++ ys) = foldUpdate (foldUpdate m xs) ys := by
  simp [foldUpdate, List.foldl_append]

theorem drainSteps_eq {T : Type} [DecidableEq T] (es : List (T × Int)) (c p : CountMap T) :
    drainSteps es (c, p) = (foldUpdate c es, foldUpdate p es) := by
  induction es generalizing c p with
  | nil => rfl
  | cons e rest ih =>
    obtain ⟨k, v⟩ := e
    simpa [drainSteps, foldUpdate] using ih (c.update k v) (p.update k v)

theorem entsCount_flatten {T : Type} [DecidableEq T] (l : List (CountMap T)) (t : T) :
    entsCount ((l.map CountMap.entries).flatten) t =
      ((List.range l.length).map
        (fun i => entsCount ((l.getD i CountMap.new).entries) t)).sum := by
  induction l with
  | nil => simp [entsCount]
  | cons m rest ih =>
    rw [List.map_cons, List.flatten_cons, entsCount_append, ih]
    rw [List.length_cons, List.range_succ_eq_map]
    rw [List.map_cons, List.sum_cons, List.getD_cons_zero, List.map_map]
    refine congrArg (entsCount m.entries t + ·) (congrArg List.sum ?_)
    refine List.map_congr_left fun i _ => ?_
    simp [Function.comp, List.getD_eq_getElem?_getD, List.getElem?_cons_succ]

theorem pullLoop_fst {T : Type} [DecidableEq T] :
    ∀ (maps : List (CountMap T)) (index : Nat) (cons prod : List (CountMap T)),
    (pullLoop maps index cons prod).1 = List.replicate maps.length CountMap.new
  | [], _, _, _ => rfl
  | m :: rest, index, cons, prod => by
    simp [pullLoop, List.replicate, pullLoop_fst rest]

theorem pullLoop_cons_length {T : Type} [DecidableEq T] :
    ∀ (maps : List (CountMap T)) (index : Nat) (cons prod : List (CountMap T)),
    (pullLoop maps index cons prod).2.1.length = cons.length
  | [], _, _, _ => rfl
  | m :: rest, index, cons, prod => by
    simp [pullLoop, pullLoop_cons_length rest, List.length_set]

theorem pullLoop_prod_length {T : Type} [DecidableEq T] :
    ∀ (maps : List (CountMap T)) (index : Nat) (cons prod : List (CountMap T)),
    (pullLoop maps index cons prod).2.2.length = prod.length
  | [], _, _, _ => rfl
  | m :: rest, index, cons, prod => by
    simp [pullLoop, pullLoop_prod_length rest, List.length_set]

theorem pullLoop_cons_out {T : Type} [DecidableEq T] :
    ∀ (maps : List (CountMap T)) (index : Nat) (cons prod : List (CountMap T)) (j : Nat),
    (j < index ∨ index + maps.length ≤ j) →
    (pullLoop maps index cons prod).2.1[j]? = cons[j]?
  | [], _, _, _, _, _ => rfl
  | m :: rest, index, cons, prod, j, hj => by
    rw [List.length_cons] at hj
    have hne : index ≠ j := by omega
    have hj1 : j < index + 1 ∨ (index + 1) + rest.length ≤ j := by omega
    simp only [pullLoop]
    rw [pullLoop_cons_out rest (index + 1) _ _ j hj1]
    exact List.getElem?_set_ne hne

theorem pullLoop_prod_out {T : Type} [DecidableEq T] :
    ∀ (maps : List (CountMap T)) (index : Nat) (cons prod : List (CountMap T)) (j : Nat),
    1 ≤ j →
    (pullLoop maps index cons prod).2.2[j]? = prod[j]?
  | [], _, _, _, _, _ => rfl
  | m :: rest, index, cons, prod, j, hj => by
    have hne : (0 : Nat) ≠ j := by omega
    simp only [pullLoop]
    rw [pullLoop_prod_out rest (index + 1) _ _ j hj]
    exact List.getElem?_set_ne hne

theorem pullLoop_cons_mid {T : Type} [DecidableEq T] :
    ∀ (maps : List (CountMap T)) (index : Nat) (cons prod : List (CountMap T)) (i : Nat),
    i < maps.length → index + maps.length ≤ cons.length →
    (pullLoop maps index cons prod).2.1[index + i]? =
      some (foldUpdate (cons.getD (index + i) CountMap.new)
        ((maps.getD i CountMap.new).entries))
  | [], _, _, _, _, hi, _ => absurd hi (by simp)
  | m :: rest, index, cons, prod, 0, hi, hlen => by
    rw [List.length_cons] at hlen
    simp only [pullLoop, Nat.add_zero, List.getD_cons_zero]
    rw [pullLoop_cons_out rest (index + 1) _ _ index (Or.inl (by omega))]
    rw [drainSteps_eq]
    exact List.getElem?_set_eq_of_lt _ (by omega)
  | m :: rest, index, cons, prod, i + 1, hi, hlen => by
    rw [List.length_cons] at hi hlen
    simp only [pullLoop, List.getD_cons_succ]
    have hstep := pullLoop_cons_mid rest (index + 1)
      (cons.set index (drainSteps m.entries
        (cons.getD index CountMap.new, prod.getD 0 CountMap.new)).1)
      (prod.set 0 (drainSteps m.entries
        (cons.getD index CountMap.new, prod.getD 0 CountMap.new)).2)
      i (by omega) (by rw [List.length_set]; omega)
    rw [show index + (i + 1) = (index + 1) + i from by omega]
    rw [hstep]
    have hgd : (cons.set index (drainSteps m.entries
          (cons.getD index CountMap.new, prod.getD 0 CountMap.new)).1).getD
          ((index + 1) + i) CountMap.new = cons.getD ((index + 1) + i) CountMap.new := by
      rw [List.getD_eq_getElem?_getD,
        List.getElem?_set_ne (by omega : index ≠ (index + 1) + i),
        ← List.getD_eq_getElem?_getD]
    rw [hgd]

theorem pullLoop_prod_zero {T : Type} [DecidableEq T] :
    ∀ (maps : List (CountMap T)) (index : Nat) (cons prod : List (CountMap T)),
    0 < prod.length →
    (pullLoop maps index cons prod).2.2[0]? =
      some (foldUpdate (prod.getD 0 CountMap.new) ((maps.map CountMap.entries).flatten))
  | [], _, _, prod, hp => by
    obtain ⟨q, prod, rfl⟩ : ∃ q rest, prod = q :: rest := by
      cases prod with
      | nil => simp at hp
      | cons q rest => exact ⟨q, rest, rfl⟩
    simp [pullLoop, foldUpdate]
  | m :: rest, index, cons, prod, hp => by
    simp only [pullLoop]
    rw [pullLoop_prod_zero rest (index + 1) _ _ (by rw [List.length_set]; exact hp)]
    rw [drainSteps_eq]
    have hgd : (prod.set 0 (foldUpdate (prod.getD 0 CountMap.new) m.entries)).getD 0
        CountMap.new = foldUpdate (prod.getD 0 CountMap.new) m.entries := by
      rw [List.getD_eq_getElem?_getD, List.getElem?_set_eq_of_lt _ hp]
      rfl
    rw [hgd, List.map_cons, List.flatten_cons, foldUpdate_append]

theorem pullLoop_replicate_new {T : Type} [DecidableEq T] :
    ∀ (n : Nat) (index : Nat) (cons prod : List (CountMap T)),
    pullLoop (List.replicate n CountMap.new) index cons prod =
      (List.replicate n CountMap.new, cons, prod)
  | 0, _, _, _ => rfl
  | n + 1, index, cons, prod => by
    show pullLoop (CountMap.new :: List.replicate n CountMap.new) index cons prod = _
    simp only [pullLoop]
    show (CountMap.new ::
      (pullLoop (List.replicate n CountMap.new) (index + 1)
        (cons.set index (drainSteps (CountMap.new : CountMap T).entries
          (cons.getD index CountMap.new, prod.getD 0 CountMap.new)).1)
        (prod.set 0 (drainSteps (CountMap.new : CountMap T).entries
          (cons.getD index CountMap.new, prod.getD 0 CountMap.new)).2)).1, _, _) = _
    rw [show (drainSteps (CountMap.new : CountMap T).entries
        (cons.getD index CountMap.new, prod.getD 0 CountMap.new)) =
        (cons.getD index CountMap.new, prod.getD 0 CountMap.new) from rfl]
    rw [set_getD_self, set_getD_self]
    rw [pullLoop_replicate_new n (index + 1) cons prod]
    rfl

theorem connectAll_scopes :
    ∀ (streams : List StreamRec) (ids : List Nat) (id index outputs : Nat) (st : BuildState),
    (connectAll streams ids id index outputs st).graph.scopes = st.graph.scopes
  | [], _, _, _, _, _ => rfl
  | s :: rest, ids, id, index, outputs, st => by
    simp only [connectAll]
    rw [connectAll_scopes rest ids (id + 1) index outputs]
    rfl

theorem connectAll_maps :
    ∀ (streams : List StreamRec) (ids : List Nat) (id index outputs : Nat) (st : BuildState),
    (connectAll streams ids id index outputs st).maps = st.maps
  | [], _, _, _, _, _ => rfl
  | s :: rest, ids, id, index, outputs, st => by
    simp only [connectAll]
    rw [connectAll_maps rest ids (id + 1) index outputs]
    rfl

theorem connectAll_ports_length :
    ∀ (streams : List StreamRec) (ids : List Nat) (id index outputs : Nat) (st : BuildState),
    (connectAll streams ids id index outputs st).ports.length = st.ports.length
  | [], _, _, _, _, _ => rfl
  | s :: rest, ids, id, index, outputs, st => by
    simp only [connectAll]
    rw [connectAll_ports_length rest ids (id + 1) index outputs]
    show (addObserver st.ports s.ports _).length = _
    rw [addObserver, List.length_set]

theorem connectAll_ports_getD :
    ∀ (streams : List StreamRec) (ids : List Nat) (id index outputs : Nat)
      (st : BuildState) (q : Nat),
    (∀ s ∈ streams, s.ports < st.ports.length) →
    (connectAll streams ids id index outputs st).ports.getD q [] =
      st.ports.getD q [] ++
        ((List.range streams.length).filter
          (fun i => (streams.getD i ⟨Source.GraphInput 0, 0⟩).ports = q)).map
          (fun i => (⟨outputs, ids.getD (id + i) 0⟩ : ObserverHelper))
  | [], _, _, _, _, _, _, _ => by simp [connectAll]
  | s :: rest, ids, id, index, outputs, st, q, hb => by
    have hs : s.ports < st.ports.length := hb s (by simp)
    have hb1 : ∀ x ∈ rest, x.ports <
        (StreamRec.connectTo s (Target.ScopeInput index id)
          ⟨outputs, ids.getD id 0⟩ st).ports.length := by
      intro x hx
      show x.ports < (addObserver st.ports s.ports _).length
      rw [addObserver, List.length_set]
      exact hb x (by simp [hx])
    simp only [connectAll]
    rw [connectAll_ports_getD rest ids (id + 1) index outputs _ q hb1]
    have hst1 : (StreamRec.connectTo s (Target.ScopeInput index id)
        ⟨outputs, ids.getD id 0⟩ st).ports.getD q [] =
        if s.ports = q then st.ports.getD q [] ++ [⟨outputs, ids.getD id 0⟩]
        else st.ports.getD q [] := by
      show (addObserver st.ports s.ports _).getD q [] = _
      rw [addObserver]
      by_cases hq : s.ports = q
      · subst hq
        rw [if_pos rfl, List.getD_eq_getElem?_getD, List.getElem?_set_eq_of_lt _ hs]
        rfl
      · rw [if_neg hq, List.getD_eq_getElem?_getD, List.getElem?_set_ne hq,
          ← List.getD_eq_getElem?_getD]
    rw [hst1]
    have htail : (((List.range rest.length).map Nat.succ).filter
          (fun i => ((s :: rest).getD i ⟨Source.GraphInput 0, 0⟩).ports = q)).map
          (fun i => (⟨outputs, ids.getD (id + i) 0⟩ : ObserverHelper)) =
        ((List.range rest.length).filter
          (fun i => (rest.getD i ⟨Source.GraphInput 0, 0⟩).ports = q)).map
          (fun i => (⟨outputs, ids.getD ((id + 1) + i) 0⟩ : ObserverHelper)) := by
      rw [List.filter_map, List.map_map]
      have hfil := List.filter_congr (l := List.range rest.length)
        (fun i _ => (show ((fun i =>
            decide (((s :: rest).getD i ⟨Source.GraphInput 0, 0⟩).ports = q)) ∘ Nat.succ) i =
            decide ((rest.getD i ⟨Source.GraphInput 0, 0⟩).ports = q) from by
          simp [Function.comp, List.getD_cons_succ]))
      rw [hfil]
      refine List.map_congr_left fun i _ => ?_
      simp only [Function.comp]
      rw [show id + (i + 1) = (id + 1) + i from by omega]
    rw [List.length_cons, List.range_succ_eq_map, List.filter_cons]
    by_cases hq : s.ports = q
    · rw [if_pos hq,
        if_pos (show decide (((s :: rest).getD 0
          ⟨Source.GraphInput 0, 0⟩).ports = q) = true from by
            simp [List.getD_cons_zero, hq])]
      rw [List.map_cons, Nat.add_zero, htail]
      simp
    · rw [if_neg hq,
        if_neg (show ¬ decide (((s :: rest).getD 0
          ⟨Source.GraphInput 0, 0⟩).ports = q) = true from by
            simp [List.getD_cons_zero, hq])]
      rw [htail]

theorem concatenate_eq (streams : List StreamRec) (st : BuildState)
    (h : streams.length ≠ 0) :
    concatenate streams st = Except.ok
      ((streams.getD 0 ⟨Source.GraphInput 0, 0⟩).cloneWith
          (Source.ScopeOutput st.graph.scopes.length 0) st.ports.length,
        connectAll streams ((List.range streams.length).map (fun i => st.maps + i)) 0
          st.graph.scopes.length st.ports.length
          ⟨⟨st.graph.scopes ++
              [⟨(List.range streams.length).map (fun i => st.maps + i)⟩],
            st.graph.edges⟩,
            st.ports ++ [[]], st.maps + streams.length⟩) := by
  simp [concatenate, h, allocPort, allocMaps, GraphRec.addScope]

/-! ### Claim theorems -/

/-- C1: for every `ConcatScope` and every call to `pull_internal_progress` with
report slices of length at least `inputs()` (consumed) and at least 1
(produced): every (timestamp, delta) entry held in input `i`'s shared counter
map at call time is removed from that map and merged via `update` into both
`messages_consumed[i]` and `messages_produced[0]`, with no other entries
added; after the call every input's shared counter map is empty. -/
theorem concatScope_pull_drains {T : Type} [DecidableEq T] (s : ConcatScope T)
    (f mc mp : List (CountMap T))
    (hc : s.inputs ≤ mc.length) (hp : 1 ≤ mp.length) :
    ((s.pullInternalProgress f mc mp).1.consumed =
        List.replicate s.inputs CountMap.new) ∧
    ((s.pullInternalProgress f mc mp).2.2.1.length = mc.length) ∧
    ((s.pullInternalProgress f mc mp).2.2.2.1.length = mp.length) ∧
    (∀ i, i < s.inputs →
      (s.pullInternalProgress f mc mp).2.2.1[i]? =
        some (foldUpdate (mc.getD i CountMap.new)
          ((s.consumed.getD i CountMap.new).entries))) ∧
    ((s.pullInternalProgress f mc mp).2.2.2.1[0]? =
      some (foldUpdate (mp.getD 0 CountMap.new)
        ((s.consumed.map CountMap.entries).flatten))) ∧
    (∀ j, s.inputs ≤ j → (s.pullInternalProgress f mc mp).2.2.1[j]? = mc[j]?) ∧
    (∀ j, 1 ≤ j → (s.pullInternalProgress f mc mp).2.2.2.1[j]? = mp[j]?) := by
  refine ⟨?_, ?_, ?_, ?_, ?_, ?_, ?_⟩
  · exact pullLoop_fst s.consumed 0 mc mp
  · exact pullLoop_cons_length s.consumed 0 mc mp
  · exact pullLoop_prod_length s.consumed 0 mc mp
  · intro i hi
    have hmid := pullLoop_cons_mid s.consumed 0 mc mp i hi (by simpa using hc)
    simpa using hmid
  · exact pullLoop_prod_zero s.consumed 0 mc mp (by omega)
  · intro j hj
    exact pullLoop_cons_out s.consumed 0 mc mp j (Or.inr (by simpa using hj))
  · intro j hj
    exact pullLoop_prod_out s.consumed 0 mc mp j hj

/-- Witness for C1 at a concrete input: one input holding the single entry
(timestamp 0, delta 2), empty one-slot reports. -/
theorem concatScope_pull_drains_witness :
    (ConcatScope.pullInternalProgress (T := Nat) ⟨[⟨[(0, 2)]⟩]⟩ []
      [CountMap.new] [CountMap.new]).2.2.2.1[0]? = some ⟨[(0, 2)]⟩ := by
  have h := concatScope_pull_drains (T := Nat) ⟨[⟨[(0, 2)]⟩]⟩ []
    [CountMap.new] [CountMap.new] (by decide) (by decide)
  exact h.2.2.2.2.1.trans (by decide)

/-- C2: the merge is progress-neutral: for every timestamp `t`, the net delta
one `pull_internal_progress` call adds to the produced report at the single
output equals the sum over all input indices of the net deltas it adds to the
consumed reports. -/
theorem concatScope_pull_conservation {T : Type} [DecidableEq T]
    (s : ConcatScope T) (f mc mp : List (CountMap T))
    (hc : s.inputs ≤ mc.length) (hp : 1 ≤ mp.length) (t : T) :
    ((s.pullInternalProgress f mc mp).2.2.2.1.getD 0 CountMap.new).count t -
        (mp.getD 0 CountMap.new).count t =
      ((List.range s.inputs).map (fun i =>
        ((s.pullInternalProgress f mc mp).2.2.1.getD i CountMap.new).count t -
          (mc.getD i CountMap.new).count t)).sum := by
  have hL : ((s.pullInternalProgress f mc mp).2.2.2.1.getD 0 CountMap.new).count t
      = (mp.getD 0 CountMap.new).count t +
        entsCount ((s.consumed.map CountMap.entries).flatten) t := by
    show ((pullLoop s.consumed 0 mc mp).2.2.getD 0 CountMap.new).count t = _
    rw [List.getD_eq_getElem?_getD, pullLoop_prod_zero s.consumed 0 mc mp (by omega)]
    exact count_foldUpdate _ _ t
  have hR : (List.range s.inputs).map (fun i =>
        ((s.pullInternalProgress f mc mp).2.2.1.getD i CountMap.new).count t -
          (mc.getD i CountMap.new).count t) =
      (List.range s.inputs).map (fun i =>
        entsCount ((s.consumed.getD i CountMap.new).entries) t) := by
    refine List.map_congr_left fun i hi => ?_
    have hin : i < s.inputs := List.mem_range.mp hi
    have hmid := pullLoop_cons_mid s.consumed 0 mc mp i hin (by simpa using hc)
    rw [Nat.zero_add] at hmid
    have : ((s.pullInternalProgress f mc mp).2.2.1.getD i CountMap.new).count t
        = (mc.getD i CountMap.new).count t +
          entsCount ((s.consumed.getD i CountMap.new).entries) t := by
      show ((pullLoop s.consumed 0 mc mp).2.1.getD i CountMap.new).count t = _
      rw [List.getD_eq_getElem?_getD, hmid]
      exact count_foldUpdate _ _ t
    rw [this]
    ring
  rw [hL, hR, show s.inputs = s.consumed.length from rfl, ← entsCount_flatten]
  ring

/-- Witness for C2 at a concrete input: two inputs with entries at timestamps
0 and 1, checked at timestamp 0. -/
theorem concatScope_pull_conservation_witness :
    ((ConcatScope.pullInternalProgress (T := Nat) ⟨[⟨[(0, 1), (1, 2)]⟩, ⟨[(0, 3)]⟩]⟩
        [] [CountMap.new, CountMap.new] [CountMap.new]).2.2.2.1.getD 0
        CountMap.new).count 0 -
      ((.new :: ([] : List (CountMap Nat))).getD 0 CountMap.new).count 0 =
    ((List.range (ConcatScope.inputs (T := Nat)
        ⟨[⟨[(0, 1), (1, 2)]⟩, ⟨[(0, 3)]⟩]⟩)).map (fun i =>
      ((ConcatScope.pullInternalProgress (T := Nat) ⟨[⟨[(0, 1), (1, 2)]⟩, ⟨[(0, 3)]⟩]⟩
          [] [CountMap.new, CountMap.new] [CountMap.new]).2.2.1.getD i
          CountMap.new).count 0 -
        (([CountMap.new, CountMap.new] : List (CountMap Nat)).getD i
          CountMap.new).count 0)).sum :=
  concatScope_pull_conservation (T := Nat) ⟨[⟨[(0, 1), (1, 2)]⟩, ⟨[(0, 3)]⟩]⟩
    [] [CountMap.new, CountMap.new] [CountMap.new] (by decide) (by decide) 0

/-- C3: `pull_internal_progress` on a `ConcatScope` returns `false` on every
call, whatever the state of its input counter maps. -/
theorem concatScope_pull_returns_false {T : Type} [DecidableEq T]
    (s : ConcatScope T) (f mc mp : List (CountMap T)) :
    (s.pullInternalProgress f mc mp).2.2.2.2 = false := rfl

/-- C5: a second `pull_internal_progress` call with no updates applied in
between leaves every caller-supplied report unchanged and returns `false`
(idempotent drain, no duplicate counts). -/
theorem concatScope_pull_idempotent {T : Type} [DecidableEq T]
    (s : ConcatScope T) (f mc mp f2 c2 p2 : List (CountMap T)) :
    ((s.pullInternalProgress f mc mp).1).pullInternalProgress f2 c2 p2 =
      ((s.pullInternalProgress f mc mp).1, f2, c2, p2, false) := by
  have h1 := pullLoop_fst s.consumed 0 mc mp
  show ConcatScope.pullInternalProgress ⟨(pullLoop s.consumed 0 mc mp).1⟩ f2 c2 p2 =
    (⟨(pullLoop s.consumed 0 mc mp).1⟩, f2, c2, p2, false)
  simp only [ConcatScope.pullInternalProgress, h1, pullLoop_replicate_new]

/-- C8: `notify_me` on a `ConcatScope` is `false`: a merge scope never
requests frontier-change notification. -/
theorem concatScope_notifyMe_false {T : Type} (s : ConcatScope T) :
    s.notifyMe = false := rfl

/-- C10: `pull_internal_progress` on a `ConcatScope` leaves the
retained-capability frontier report completely unchanged. -/
theorem concatScope_pull_frontier_unchanged {T : Type} [DecidableEq T]
    (s : ConcatScope T) (f mc mp : List (CountMap T)) :
    (s.pullInternalProgress f mc mp).2.1 = f := rfl

/-- C4: `concatenate` on an empty vector of streams fails with the usage
error (the `panic!` of the source, embedded as `Except.error`), and on every
non-empty vector it does not fail. -/
theorem concatenate_empty_errors (streams : List StreamRec) (st : BuildState)
    (h : streams ≠ []) :
    concatenate ([] : List StreamRec) st =
      Except.error "must pass at least one stream to concat" ∧
    (concatenate streams st).isOk = true := by
  refine ⟨rfl, ?_⟩
  rw [concatenate_eq streams st (fun hl => h (List.length_eq_zero.mp hl))]
  rfl

/-- Witness for C4: a one-stream vector on a one-port build state. -/
theorem concatenate_empty_errors_witness :
    concatenate ([] : List StreamRec) ⟨⟨[], []⟩, [[]], 0⟩ =
      Except.error "must pass at least one stream to concat" ∧
    (concatenate [⟨Source.GraphInput 0, 0⟩] ⟨⟨[], []⟩, [[]], 0⟩).isOk = true :=
  concatenate_empty_errors [⟨Source.GraphInput 0, 0⟩] ⟨⟨[], []⟩, [[]], 0⟩
    (by decide)

/-- C6: `concatenate` on a non-empty vector of `n` streams registers exactly
one new merge scope, whose `inputs()` is `n` and `outputs()` is 1, holding one
freshly allocated counter map per input stream (identifiers `st.maps + i`, all
new); the observer wired for input `i` binds the fresh merged output port and
the same fresh map identifier the scope holds at input `i`; and the arities
never change after construction (`pull_internal_progress` preserves them). -/
theorem concatenate_registers_scope (streams : List StreamRec) (st : BuildState)
    (h : streams ≠ [])
    (hb : ∀ s ∈ streams, s.ports < st.ports.length) :
    ∃ out st2, concatenate streams st = Except.ok (out, st2) ∧
      st2.graph.scopes = st.graph.scopes ++
        [⟨(List.range streams.length).map (fun i => st.maps + i)⟩] ∧
      (⟨(List.range streams.length).map (fun i => st.maps + i)⟩ : ScopeRec).inputs
        = streams.length ∧
      (⟨(List.range streams.length).map (fun i => st.maps + i)⟩ : ScopeRec).outputs
        = 1 ∧
      st2.maps = st.maps + streams.length ∧
      (∀ q, st2.ports.getD q [] = (st.ports ++ [[]]).getD q [] ++
        ((List.range streams.length).filter
          (fun i => (streams.getD i ⟨Source.GraphInput 0, 0⟩).ports = q)).map
          (fun i => (⟨st.ports.length, st.maps + i⟩ : ObserverHelper))) ∧
      (∀ (rs : ConcatScope Nat) (f mc mp : List (CountMap Nat)),
        ((rs.pullInternalProgress f mc mp).1).inputs = rs.inputs ∧
        ((rs.pullInternalProgress f mc mp).1).outputs = rs.outputs) := by
  have hl : streams.length ≠ 0 := fun hl => h (List.length_eq_zero.mp hl)
  refine ⟨_, _, concatenate_eq streams st hl, ?_, ?_, ?_, ?_, ?_, ?_⟩
  · rw [connectAll_scopes]
  · simp [ScopeRec.inputs]
  · rfl
  · rw [connectAll_maps]
  · intro q
    have hb3 : ∀ s ∈ streams, s.ports < (st.ports ++ [[]]).length := by
      intro s hs
      rw [List.length_append]
      exact Nat.lt_of_lt_of_le (hb s hs) (by omega)
    rw [connectAll_ports_getD streams _ 0 st.graph.scopes.length st.ports.length _ q hb3]
    refine congrArg (_ ++ ·) (List.map_congr_left fun i hi => ?_)
    have hin : i < streams.length := List.mem_range.mp (List.mem_of_mem_filter hi)
    rw [Nat.zero_add, List.getD_eq_getElem?_getD, List.getElem?_map,
      List.getElem?_range hin]
    rfl
  · intro rs f mc mp
    refine ⟨?_, rfl⟩
    show (pullLoop rs.consumed 0 mc mp).1.length = rs.consumed.length
    rw [pullLoop_fst, List.length_replicate]

/-- Witness for C6: one stream on a one-port build state. -/
theorem concatenate_registers_scope_witness :
    ∃ out st2, concatenate [⟨Source.GraphInput 0, 0⟩] ⟨⟨[], []⟩, [[]], 0⟩ =
        Except.ok (out, st2) ∧
      st2.graph.scopes = ([] : List ScopeRec) ++
        [⟨(List.range 1).map (fun i => 0 + i)⟩] ∧
      (⟨(List.range 1).map (fun i => 0 + i)⟩ : ScopeRec).inputs = 1 ∧
      (⟨(List.range 1).map (fun i => 0 + i)⟩ : ScopeRec).outputs = 1 ∧
      st2.maps = 0 + 1 ∧
      (∀ q, st2.ports.getD q [] = (([[]] : List (List ObserverHelper)) ++
          [[]]).getD q [] ++
        ((List.range 1).filter (fun i => (([⟨Source.GraphInput 0, 0⟩] :
          List StreamRec).getD i ⟨Source.GraphInput 0, 0⟩).ports = q)).map
          (fun i => (⟨1, 0 + i⟩ : ObserverHelper))) ∧
      (∀ (rs : ConcatScope Nat) (f mc mp : List (CountMap Nat)),
        ((rs.pullInternalProgress f mc mp).1).inputs = rs.inputs ∧
        ((rs.pullInternalProgress f mc mp).1).outputs = rs.outputs) :=
  concatenate_registers_scope [⟨Source.GraphInput 0, 0⟩] ⟨⟨[], []⟩, [[]], 0⟩
    (by decide) (by decide)

/-- C7: `connect_to(target, observer)` records exactly one directed edge from
the stream's own source address to `target`, appends the observer to the
stream's own output port, and modifies nothing else (no scopes, no map
allocations, no other port). -/
theorem connectTo_adds_edge_and_observer (s : StreamRec) (target : Target)
    (obs : ObserverHelper) (st : BuildState)
    (hp : s.ports < st.ports.length) :
    (s.connectTo target obs st).graph.edges =
        st.graph.edges ++ [(s.name, target)] ∧
    (s.connectTo target obs st).graph.scopes = st.graph.scopes ∧
    (s.connectTo target obs st).maps = st.maps ∧
    (s.connectTo target obs st).ports.length = st.ports.length ∧
    (s.connectTo target obs st).ports.getD s.ports [] =
        st.ports.getD s.ports [] ++ [obs] ∧
    (∀ q, q ≠ s.ports →
      (s.connectTo target obs st).ports.getD q [] = st.ports.getD q []) := by
  refine ⟨rfl, rfl, rfl, ?_, ?_, ?_⟩
  · show (addObserver st.ports s.ports obs).length = _
    rw [addObserver, List.length_set]
  · show (addObserver st.ports s.ports obs).getD s.ports [] = _
    rw [addObserver, List.getD_eq_getElem?_getD, List.getElem?_set_eq_of_lt _ hp]
    rfl
  · intro q hq
    show (addObserver st.ports s.ports obs).getD q [] = _
    rw [addObserver, List.getD_eq_getElem?_getD, List.getElem?_set_ne (Ne.symm hq),
      ← List.getD_eq_getElem?_getD]

/-- Witness for C7: connecting a stream on port 0 of a one-port build state. -/
theorem connectTo_adds_edge_and_observer_witness :
    (StreamRec.connectTo ⟨Source.GraphInput 0, 0⟩ (Target.ScopeInput 0 0) ⟨0, 0⟩
        ⟨⟨[], []⟩, [[]], 0⟩).graph.edges =
      ([] : List (Source × Target)) ++
        [(Source.GraphInput 0, Target.ScopeInput 0 0)] := by
  have h := connectTo_adds_edge_and_observer ⟨Source.GraphInput 0, 0⟩
    (Target.ScopeInput 0 0) ⟨0, 0⟩ ⟨⟨[], []⟩, [[]], 0⟩ (by decide)
  exact h.1

/-- C9: `concat` builds the same construction as `concatenate` on the
two-element vector: the same scope with the two fresh shared maps, the same
two wiring calls in the same order, and the returned stream is at the new
scope's output 0 with the fresh output port. -/
theorem concat_refines_concatenate (a b : StreamRec) (st : BuildState) :
    concatenate [a, b] st = Except.ok (a.concat b st) ∧
    (a.concat b st).1 =
      ⟨Source.ScopeOutput st.graph.scopes.length 0, st.ports.length⟩ ∧
    (a.concat b st).2.graph.edges = st.graph.edges ++
      [(a.name, Target.ScopeInput st.graph.scopes.length 0),
        (b.name, Target.ScopeInput st.graph.scopes.length 1)] ∧
    (a.concat b st).2.graph.scopes =
      st.graph.scopes ++ [⟨[st.maps, st.maps + 1]⟩] := by
  refine ⟨rfl, rfl, ?_, ?_⟩
  · show (st.graph.edges ++ [(a.name, Target.ScopeInput st.graph.scopes.length 0)])
        ++ [(b.name, Target.ScopeInput st.graph.scopes.length 1)] = _
    rw [List.append_assoc]
    rfl
  · rfl

end Timely
